import Mathlib

/-!
# zipbox: runtime archive locator and virtual filesystem

A shallow embedding of `zipbox.go`.

* Go strings are Lean `String`s; the string helpers of the Go standard library that
  the code calls (`strings.TrimLeft`, `strings.SplitN`, `strings.Replace`,
  `filepath.Base`, `filepath.Dir`, `filepath.Clean`, `filepath.IsAbs`) are modelled
  with their Unix behaviour (`filepath.ToSlash` is the identity there).
* Pointers `*zipBoxFile` are indices (`Ptr`) into an explicit heap.  All handles and
  all `children` slices alias the nodes of the heap, exactly as the Go pointers do.
* The maps `zipBox.Files` and `zipBoxes` are finite maps, modelled as functions into
  `Option` (the code never iterates over them).
* Everything outside the repository (the `archive/zip` entry data, the executable
  format parsers, the ordinary filesystem) is a parameter.
-/

namespace ZipBoxModel

deriving instance DecidableEq for Except

/-! ## Strings and paths -/

abbrev Byte := Nat

/-- The Go call `strings.TrimLeft(s, "/")`: drop every leading slash. -/
def TrimLeft (s : String) : String :=
  String.mk (s.data.dropWhile (fun c => c == '/'))

/-- Split a character list at the first slash, if there is one. -/
def splitFirstSlash : List Char → Option (List Char × List Char)
  | [] => none
  | c :: cs =>
    if c = '/' then some ([], cs)
    else match splitFirstSlash cs with
      | none => none
      | some (a, b) => some (c :: a, b)

/-- The Go call `strings.SplitN(s, "/", 2)`: at most two parts, cut at the first slash. -/
def SplitN2 (s : String) : List String :=
  match splitFirstSlash s.data with
  | none => [s]
  | some (a, b) => [String.mk a, String.mk b]

/-- The Go call `strings.Replace(s, "/", "-", -1)`. -/
def ReplaceSlashDash (s : String) : String :=
  String.mk (s.data.map (fun c => if c = '/' then '-' else c))

/-- The Go call `filepath.IsAbs(s)` on Unix: the path starts with a slash. -/
def IsAbs (s : String) : Bool :=
  match s.data with
  | c :: _ => c == '/'
  | [] => false

/-- All slash-separated components of a path, empty ones included. -/
def splitSlash : List Char → List (List Char)
  | [] => [[]]
  | c :: cs =>
    if c = '/' then [] :: splitSlash cs
    else match splitSlash cs with
      | [] => [[c]]
      | x :: xs => (c :: x) :: xs

/-- One step of `filepath.Clean` on the stack of components kept so far (top first). -/
def cleanStep (rooted : Bool) (stack : List (List Char)) (comp : List Char) :
    List (List Char) :=
  if comp = [] ∨ comp = ['.'] then stack
  else if comp = ['.', '.'] then
    match stack with
    | [] => if rooted then [] else [comp]
    | top :: rest => if top = ['.', '.'] then (if rooted then stack else comp :: stack) else rest
  else comp :: stack

/-- Join components with slashes. -/
def joinSlash : List (List Char) → List Char
  | [] => []
  | [x] => x
  | x :: y :: rest => x ++ '/' :: joinSlash (y :: rest)

/-- The Go call `filepath.Clean` on Unix, on character lists: the shortest equivalent
path by purely lexical processing (empty and `.` components dropped, `..` cancels the
component before it, a rooted path keeps its single leading slash, the empty result
is `.`). -/
def cleanChars (p : List Char) : List Char :=
  let rooted : Bool := match p with
    | c :: _ => c == '/'
    | [] => false
  let body := joinSlash ((splitSlash p).foldl (cleanStep rooted) []).reverse
  if rooted then '/' :: body else if body = [] then ['.'] else body

/-- The Go call `filepath.Clean`. -/
def Clean (p : String) : String := String.mk (cleanChars p.data)

/-- The Go call `filepath.Dir` on Unix: everything up to and including the last slash,
then `Clean`. -/
def Dir (p : String) : String :=
  String.mk (cleanChars (p.data.reverse.dropWhile (fun c => c != '/')).reverse)

/-- The Go calls `filepath.Base` and `path.Base` on Unix: the last element of the
path, trailing slashes removed first; `.` for the empty path, `/` for a path of
slashes only. -/
def Base (p : String) : String :=
  if p.data = [] then "."
  else
    let t := p.data.reverse.dropWhile (fun c => c == '/')
    let b := (t.takeWhile (fun c => c != '/')).reverse
    if b = [] then "/" else String.mk b

/-! ## Errors -/

/-- The error values the runtime library produces, named by their spec taxonomy.
`NotFound` is the `os.PathError` wrapping `os.ErrNotExist`; `DataUnavailable` is
"error reading data from zip file"; `Closed` is "file is closed"; `AlreadyClosed`
is "already closed"; `IsDirectory` is "is a directory"; `NotADirectory` is
`os.ErrInvalid`; `AbsolutePathRejected` is "given name/path is absolute";
`BoxNotFound` is "unable to find zipbox"; `UnrecognizedContainer` is "unable to
open as executable"; `EOF` is `io.EOF`; the two seek errors are those of
`bytes.Reader.Seek`; `External` is any error of a standard-library parser or of the
operating system. -/
inductive Err where
  | NotFound
  | DataUnavailable
  | Closed
  | AlreadyClosed
  | IsDirectory
  | NotADirectory
  | AbsolutePathRejected
  | BoxNotFound
  | UnrecognizedContainer
  | EOF
  | SeekInvalidWhence
  | SeekNegative
  | External
  deriving DecidableEq, Repr

/-! ## Data model -/

/-- What the code observes of one `*zip.File` of the archive.  `Size`, `InfoModTime`
and `InfoIsDir` are the answers of `FileInfo()`; `ModTime` is the answer of
`ModTime()`; `OpenErr` tells whether `Open()` fails; `ReadData` are the bytes the
first `Read` on the opened entry copies into the buffer and `ReadErr` tells whether
that `Read` returns an error. -/
structure ZipFile where
  Name : String
  Comment : String
  ModTime : Nat
  Size : Nat
  InfoModTime : Nat
  InfoIsDir : Bool
  OpenErr : Bool
  ReadData : List Byte
  ReadErr : Bool
  deriving DecidableEq, Repr

/-- An `os.FileInfo` value, as far as callers can observe it. -/
structure FileInfo where
  Name : String
  Size : Nat
  ModTime : Nat
  IsDir : Bool
  deriving DecidableEq, Repr

/-- The method `(*zip.File).FileInfo()`: pass-through header metadata, the name being
`path.Base` of the entry name. -/
def ZipFile.FileInfo (f : ZipFile) : FileInfo :=
  { Name := Base f.Name, Size := f.Size, ModTime := f.InfoModTime, IsDir := f.InfoIsDir }

/-- The Go struct `zipBoxDir`. -/
structure zipBoxDir where
  name : String
  time : Nat
  deriving DecidableEq, Repr

/-- The methods `Name`, `Size`, `Mode`/`IsDir`, `ModTime` of `*zipBoxDir`. -/
def zipBoxDir.FileInfo (d : zipBoxDir) : FileInfo :=
  { Name := d.name, Size := 0, ModTime := d.time, IsDir := true }

/-- A `*bytes.Reader`: the slice it reads from and the current offset `i`. -/
structure BytesReader where
  s : List Byte
  i : Int
  deriving DecidableEq, Repr

abbrev Ptr := Nat

/-- The Go struct `zipBoxFile`.  `content = none` is the nil slice, `reader = none`
the nil reader, `dirInfo = none` the nil pointer. -/
structure zipBoxFile where
  zipFile : ZipFile
  dir : Bool
  dirInfo : Option zipBoxDir
  children : List Ptr
  content : Option (List Byte)
  reader : Option BytesReader
  deriving DecidableEq, Repr

/-- The heap of `zipBoxFile` objects. -/
abbrev Heap := Ptr → zipBoxFile

/-- The Go struct `zipBox`. -/
structure zipBox where
  Name : String
  Files : String → Option Ptr
  Time : Nat

/-- The Go struct `ZipBox` (its `absPath` field is never written or read).  The
pointer `box` is modelled by the box it points to: no box is written after `init`. -/
structure ZipBox where
  name : String
  box : zipBox

/-- The Go struct `File`: a handle is nothing but the pointer to the node. -/
structure File where
  ptr : Ptr
  deriving DecidableEq, Repr

/-- The Go struct `HTTPZipBox`. -/
structure HTTPZipBox where
  ZipBox : ZipBox

/-- The process state: the heap, the next free address and the registry `zipBoxes`. -/
structure World where
  heap : Heap
  next : Ptr
  zipBoxes : String → Option zipBox

/-- Finite-map and heap update. -/
def upd {α β : Type} [DecidableEq α] (m : α → β) (k : α) (v : β) : α → β :=
  fun x => if x = k then v else m x

/-- A zero-valued `zip.File`. -/
def ZipFile.zero : ZipFile :=
  { Name := "", Comment := "", ModTime := 0, Size := 0, InfoModTime := 0,
    InfoIsDir := false, OpenErr := false, ReadData := [], ReadErr := false }

/-- The content of unallocated heap cells. -/
def zipBoxFile.zero : zipBoxFile :=
  { zipFile := ZipFile.zero, dir := false, dirInfo := none, children := [],
    content := none, reader := none }

/-- The state before `init` runs: nothing allocated, empty registry. -/
def World.empty : World :=
  { heap := fun _ => zipBoxFile.zero, next := 0, zipBoxes := fun _ => none }

/-! ## Ingest (`init`) -/

/-- The buffer `init` builds for a File entry: `make([]byte, Size)`; if non-empty,
`Open` and one `Read` into it; any error leaves the nil slice. -/
def loadContent (file : ZipFile) : Option (List Byte) :=
  if file.Size > 0 then
    if file.OpenErr then none
    else if file.ReadErr then none
    else
      let got := file.ReadData.take file.Size
      some (got ++ List.replicate (file.Size - got.length) 0)
  else some []

/-- The node `init` creates for one archive entry, before it is linked. -/
def newNode (file : ZipFile) : zipBoxFile :=
  if file.Comment = "dir" then
    { zipFile := file, dir := true,
      dirInfo := some { name := Base file.Name, time := file.ModTime },
      children := [], content := none, reader := none }
  else
    { zipFile := file, dir := false, dirInfo := none, children := [],
      content := loadContent file, reader := none }

/-- The box name of an entry: the first part of its trimmed name. -/
def boxNameOf (file : ZipFile) : String :=
  (SplitN2 (TrimLeft file.Name)).getD 0 ""

/-- The path of an entry inside its box: the second part, if there is one. -/
def fileNameOf (file : ZipFile) : String :=
  let fileParts := SplitN2 (TrimLeft file.Name)
  if fileParts.length > 1 then fileParts.getD 1 "" else ""

/-- The parent key `init` computes: `filepath.Dir`, with `.` mapped to the empty path. -/
def dirNameOf (fileName : String) : String :=
  let dirName := Dir fileName
  if dirName = "." then "" else dirName

/-- The body of the loop of `init` for one archive entry. -/
def ingestEntry (w : World) (file : ZipFile) : World :=
  let boxName := boxNameOf file
  let fileName := fileNameOf file
  let box : zipBox := match w.zipBoxes boxName with
    | some b => b
    | none => { Name := boxName, Files := fun _ => none, Time := file.ModTime }
  let zboxFile := w.next
  let heap1 := upd w.heap zboxFile (newNode file)
  let files := upd box.Files fileName (some zboxFile)
  let dirName := dirNameOf fileName
  let heap2 :=
    if fileName ≠ "" then
      match files dirName with
      | some dir => upd heap1 dir { heap1 dir with children := (heap1 dir).children ++ [zboxFile] }
      | none => heap1
    else heap1
  { heap := heap2, next := zboxFile + 1,
    zipBoxes := upd w.zipBoxes boxName (some { box with Files := files }) }

/-- The loop of `init` over the entries of the archive, in archive order. -/
def ingest (entries : List ZipFile) : World :=
  entries.foldl ingestEntry World.empty

/-! ## Box lookup and box operations -/

/-- The Go function `get`: reject absolute names, replace slashes by dashes, look the
box up in the registry. -/
def get (w : World) (name : String) : Except Err ZipBox :=
  if IsAbs name then .error .AbsolutePathRejected
  else
    match w.zipBoxes (ReplaceSlashDash name) with
    | some box => .ok { name := name, box := box }
    | none => .error .BoxNotFound

/-- The Go function `Get`. -/
def Get (w : World) (name : String) : Except Err ZipBox := get w name

/-- The Go method `(*ZipBox).Open`.  The new handle embeds the node pointer, so the
assignment to `f.reader` writes the `reader` field of the node itself. -/
def ZipBox.Open (z : ZipBox) (name : String) (h : Heap) : Except Err File × Heap :=
  let name := TrimLeft name
  match z.box.Files name with
  | none => (.error .NotFound, h)
  | some zboxFile =>
    if !(h zboxFile).dir then
      match (h zboxFile).content with
      | none => (.error .DataUnavailable, h)
      | some content =>
        (.ok ⟨zboxFile⟩, upd h zboxFile { h zboxFile with reader := some { s := content, i := 0 } })
    else (.ok ⟨zboxFile⟩, h)

/-- The Go method `(*ZipBox).Bytes`: `ioutil.ReadFile(file)` on the ordinary
filesystem `fs`; the receiver is not consulted. -/
def ZipBox.Bytes (fs : String → Except Err (List Byte)) (_z : ZipBox) (file : String) :
    Except Err (List Byte) :=
  match fs file with
  | .error err => .error err
  | .ok data => .ok data

/-- The Go method `(*ZipBox).String`; a Go string is the byte sequence itself. -/
def ZipBox.String (fs : String → Except Err (List Byte)) (z : ZipBox) (name : String) :
    Except Err (List Byte) :=
  match z.Bytes fs name with
  | .error err => .error err
  | .ok data => .ok data

/-- The Go method `(*ZipBox).HTTPZipBox`. -/
def ZipBox.HTTPZipBox (z : ZipBox) : HTTPZipBox := ⟨z⟩

/-- The Go method `(*HTTPZipBox).Open`. -/
def HTTPZipBox.Open (z : HTTPZipBox) (name : String) (h : Heap) : Except Err File × Heap :=
  z.ZipBox.Open name h

/-! ## Handle operations -/

/-- The Go method `(*File).Close`. -/
def File.Close (f : File) (h : Heap) : Except Err Unit × Heap :=
  if (h f.ptr).reader = none then (.error .AlreadyClosed, h)
  else (.ok (), upd h f.ptr { h f.ptr with reader := none })

/-- The Go method `(*File).Stat`.  The result `none` is the nil `*zipBoxDir` seen as
an `os.FileInfo`. -/
def File.Stat (f : File) (h : Heap) : Except Err (Option FileInfo) :=
  if (h f.ptr).dir then .ok ((h f.ptr).dirInfo.map zipBoxDir.FileInfo)
  else if (h f.ptr).reader = none then .error .Closed
  else .ok (some (h f.ptr).zipFile.FileInfo)

/-- The value `Readdir` appends for one child: `child.dirInfo` for a directory (`none`
when that pointer is nil), `child.zipFile.FileInfo()` otherwise. -/
def childInfo (child : zipBoxFile) : Option FileInfo :=
  if child.dir then child.dirInfo.map zipBoxDir.FileInfo
  else some child.zipFile.FileInfo

/-- The Go method `(*File).Readdir`; the `count` argument is not used. -/
def File.Readdir (f : File) (_count : Int) (h : Heap) : Except Err (List (Option FileInfo)) :=
  if (h f.ptr).dir then
    .ok ((h f.ptr).children.map (fun child => childInfo (h child)))
  else .error .NotADirectory

/-- The Go method `(*bytes.Reader).Read` for a destination of length `n`: the bytes
copied, the error, and the reader afterwards. -/
def BytesReader.Read (r : BytesReader) (n : Nat) : (List Byte × Option Err) × BytesReader :=
  if r.i ≥ (r.s.length : Int) then (([], some .EOF), r)
  else
    let data := (r.s.drop r.i.toNat).take n
    ((data, none), { r with i := r.i + data.length })

/-- Wrap-around of `int64` arithmetic. -/
def wrap64 (x : Int) : Int := (x + 2 ^ 63) % 2 ^ 64 - 2 ^ 63

/-- The Go method `(*bytes.Reader).Seek`. -/
def BytesReader.Seek (r : BytesReader) (offset : Int) (whence : Int) :
    Except Err Int × BytesReader :=
  let abs : Option Int :=
    if whence = 0 then some offset
    else if whence = 1 then some (wrap64 (r.i + offset))
    else if whence = 2 then some (wrap64 ((r.s.length : Int) + offset))
    else none
  match abs with
  | none => (.error .SeekInvalidWhence, r)
  | some a => if a < 0 then (.error .SeekNegative, r) else (.ok a, { r with i := a })

/-- The Go method `(*File).Read` for a destination of length `n`: first the nil-reader
test, then the directory test, then the read through the node's reader. -/
def File.Read (f : File) (n : Nat) (h : Heap) : (List Byte × Option Err) × Heap :=
  match (h f.ptr).reader with
  | none => (([], some .Closed), h)
  | some r =>
    if (h f.ptr).dir then (([], some .IsDirectory), h)
    else
      let res := r.Read n
      (res.1, upd h f.ptr { h f.ptr with reader := some res.2 })

/-- The Go method `(*File).Seek`. -/
def File.Seek (f : File) (offset : Int) (whence : Int) (h : Heap) : Except Err Int × Heap :=
  match (h f.ptr).reader with
  | none => (.error .Closed, h)
  | some r =>
    let res := r.Seek offset whence
    (res.1, upd h f.ptr { h f.ptr with reader := some res.2 })

/-! ## Executable format sniffer -/

/-- An `io.ReaderAt`: the byte source handed to `NewReader`, a reader embedded in a
parsed segment or section, or an `io.NewSectionReader` view of another one. -/
inductive ReaderAt where
  | source (id : Nat)
  | section (r : ReaderAt) (off : Int) (n : Int)
  deriving DecidableEq, Repr

/-- A `*zip.Reader`, as far as `init` uses it. -/
structure ZipReader where
  File : List ZipFile
  deriving DecidableEq, Repr

/-- A `*macho.Segment`: `uint64` offset and size, and its embedded reader. -/
structure MachoSegment where
  Offset : Nat
  Filesz : Nat
  ReaderAt : ReaderAt

/-- A load command of a Mach-O file: a segment or anything else. -/
inductive MachoLoad where
  | segment (seg : MachoSegment)
  | other

/-- A `*pe.Section`: `uint32` offset and size, and its embedded reader. -/
structure PeSection where
  Offset : Nat
  Size : Nat
  ReaderAt : ReaderAt

/-- A `*elf.Section`: its `Type` (here `SectType`), `uint64` offset and size, and its
embedded reader. -/
structure ElfSection where
  SectType : Nat
  Offset : Nat
  Size : Nat
  ReaderAt : ReaderAt

/-- The standard-library parsers the sniffer calls. -/
structure Parsers where
  zipNewReader : ReaderAt → Int → Except Err ZipReader
  machoNewFile : ReaderAt → Except Err (List MachoLoad)
  elfNewFile : ReaderAt → Except Err (List ElfSection)
  peNewFile : ReaderAt → Except Err (List PeSection)

/-- Conversion `int64(x)` of a `uint64` value. -/
def toInt64 (x : Nat) : Int := wrap64 ((x % 2 ^ 64 : Nat) : Int)

/-- The constant `elf.SHT_NOBITS`. -/
def SHT_NOBITS : Nat := 8

/-- The loop of `zipExeReaderMacho`: the first segment that holds an archive, or the
largest segment end. -/
def scanMacho (ps : Parsers) : List MachoLoad → Int → ZipReader ⊕ Int
  | [], max => .inr max
  | .other :: rest, max => scanMacho ps rest max
  | .segment seg :: rest, max =>
    match ps.zipNewReader seg.ReaderAt (toInt64 seg.Filesz) with
    | .ok zfile => .inl zfile
    | .error _ =>
      let e := toInt64 ((seg.Offset + seg.Filesz) % 2 ^ 64)
      scanMacho ps rest (if e > max then e else max)

/-- The Go function `zipExeReaderMacho`. -/
def zipExeReaderMacho (ps : Parsers) (reader : ReaderAt) (size : Int) : Except Err ZipReader :=
  match ps.machoNewFile reader with
  | .error err => .error err
  | .ok loads =>
    match scanMacho ps loads 0 with
    | .inl zfile => .ok zfile
    | .inr max => ps.zipNewReader (.section reader max (size - max)) (size - max)

/-- The loop of `zipExeReaderPe` (`uint32` arithmetic for the section end). -/
def scanPe (ps : Parsers) : List PeSection → Int → ZipReader ⊕ Int
  | [], max => .inr max
  | sec :: rest, max =>
    match ps.zipNewReader sec.ReaderAt (sec.Size % 2 ^ 32 : Nat) with
    | .ok zfile => .inl zfile
    | .error _ =>
      let e : Int := ((sec.Offset + sec.Size) % 2 ^ 32 : Nat)
      scanPe ps rest (if e > max then e else max)

/-- The Go function `zipExeReaderPe`. -/
def zipExeReaderPe (ps : Parsers) (reader : ReaderAt) (size : Int) : Except Err ZipReader :=
  match ps.peNewFile reader with
  | .error err => .error err
  | .ok sections =>
    match scanPe ps sections 0 with
    | .inl zfile => .ok zfile
    | .inr max => ps.zipNewReader (.section reader max (size - max)) (size - max)

/-- The loop of `zipExeReaderElf`: sections of type `SHT_NOBITS` are skipped. -/
def scanElf (ps : Parsers) : List ElfSection → Int → ZipReader ⊕ Int
  | [], max => .inr max
  | sect :: rest, max =>
    if sect.SectType = SHT_NOBITS then scanElf ps rest max
    else
      match ps.zipNewReader sect.ReaderAt (toInt64 sect.Size) with
      | .ok zfile => .inl zfile
      | .error _ =>
        let e := toInt64 ((sect.Offset + sect.Size) % 2 ^ 64)
        scanElf ps rest (if e > max then e else max)

/-- The Go function `zipExeReaderElf`. -/
def zipExeReaderElf (ps : Parsers) (reader : ReaderAt) (size : Int) : Except Err ZipReader :=
  match ps.elfNewFile reader with
  | .error err => .error err
  | .ok sections =>
    match scanElf ps sections 0 with
    | .inl zfile => .ok zfile
    | .inr max => ps.zipNewReader (.section reader max (size - max)) (size - max)

/-- A sniffing strategy. -/
abbrev Handler := ReaderAt → Int → Except Err ZipReader

/-- The loop of `NewReader` over a list of handlers: the result of the first handler
whose error is nil, otherwise "unable to open as executable". -/
def tryHandlers : List Handler → ReaderAt → Int → Except Err ZipReader
  | [], _, _ => .error .UnrecognizedContainer
  | handler :: rest, reader, size =>
    match handler reader size with
    | .ok file => .ok file
    | .error _ => tryHandlers rest reader size

/-- The slice `handlers` of `NewReader`. -/
def handlers (ps : Parsers) : List Handler :=
  [ps.zipNewReader, zipExeReaderMacho ps, zipExeReaderElf ps, zipExeReaderPe ps]

/-- The Go function `NewReader`. -/
def NewReader (ps : Parsers) (reader : ReaderAt) (size : Int) : Except Err ZipReader :=
  tryHandlers (handlers ps) reader size

/-- The Go function `init`.  The argument `exe` is the outcome of resolving and
opening the running executable (`os.Executable`, `filepath.EvalSymlinks`, `os.Open`,
`Stat`): the byte source and its size, or an error. -/
def init (ps : Parsers) (exe : Except Err (ReaderAt × Int)) : World :=
  match exe with
  | .error _ => World.empty
  | .ok (reader, size) =>
    match NewReader ps reader size with
    | .error _ => World.empty
    | .ok r => ingest r.File

/-! ## The scenario archive -/

/-- The directory entry `public`, carrying the directory marker. -/
def publicDirEntry : ZipFile :=
  { Name := "public", Comment := "dir", ModTime := 7, Size := 0, InfoModTime := 7,
    InfoIsDir := false, OpenErr := false, ReadData := [], ReadErr := false }

/-- The bytes of the string "hello". -/
def helloBytes : List Byte := [104, 101, 108, 108, 111]

/-- The file entry `public/test.txt` with content "hello". -/
def testTxtEntry : ZipFile :=
  { Name := "public/test.txt", Comment := "", ModTime := 7, Size := 5, InfoModTime := 7,
    InfoIsDir := false, OpenErr := false, ReadData := helloBytes, ReadErr := false }

/-- The state after ingesting the scenario archive. -/
def scenarioWorld : World := ingest [publicDirEntry, testTxtEntry]

/-- The box `public` of the scenario, as `init` leaves it: the root directory under
the empty path and the file under `test.txt`. -/
def scenarioBox : ZipBox :=
  { name := "public",
    box := { Name := "public",
             Files := upd (upd (fun _ => none) "" (some 0)) "test.txt" (some 1),
             Time := 7 } }

/-- An ordinary filesystem that holds no file at all. -/
def emptyFs : String → Except Err (List Byte) := fun _ => .error .NotFound

/-- An ordinary filesystem whose every file holds the single byte 1. -/
def onesFs : String → Except Err (List Byte) := fun _ => .ok [1]

/-! ## Vocabulary for the ingest invariants -/

/-- The box name and box-relative path under which `init` stores an entry. -/
def keyOf (e : ZipFile) : String × String := (boxNameOf e, fileNameOf e)

/-- The box name and parent path under which `init` looks for the parent of an entry. -/
def parentKeyOf (e : ZipFile) : String × String := (boxNameOf e, dirNameOf (fileNameOf e))

/-- The node stored under path `k` of box `b`, if the box exists and has one. -/
def lookupFiles (w : World) (b k : String) : Option Ptr :=
  match w.zipBoxes b with
  | some box => box.Files k
  | none => none

/-- Index `p` is the last entry of `es` stored under `key`. -/
def IsLast (es : List ZipFile) (key : String × String) (p : Nat) : Prop :=
  (∃ e, es[p]? = some e ∧ keyOf e = key) ∧
    ∀ j e2, p < j → es[j]? = some e2 → keyOf e2 ≠ key

/-- Entry `p` is stored under the parent path of entry `c`, which has a non-empty path. -/
def IsParentEntry (p c : ZipFile) : Prop :=
  fileNameOf c ≠ "" ∧ keyOf p = parentKeyOf c

instance (p c : ZipFile) : Decidable (IsParentEntry p c) := by
  unfold IsParentEntry
  infer_instance

/-- No two entries of the archive are stored under the same box and path. -/
def DistinctKeys (es : List ZipFile) : Prop := (es.map keyOf).Nodup

/-- Every entry stored under the parent path of another entry precedes it in the
archive: no entry is the parent of an entry before it. -/
def ParentFirst (es : List ZipFile) : Prop :=
  es.Pairwise (fun a b => ¬ IsParentEntry b a)

instance (es : List ZipFile) : Decidable (DistinctKeys es) := by
  unfold DistinctKeys
  infer_instance

instance (es : List ZipFile) : Decidable (ParentFirst es) := by
  unfold ParentFirst
  infer_instance

/-- The facts that hold of the state after `init` has processed the entries `es`. -/
structure Inv (es : List ZipFile) (w : World) : Prop where
  next_eq : w.next = es.length
  zipFile_eq : ∀ (p : Nat) e, es[p]? = some e → (w.heap p).zipFile = e
  files_iff : ∀ b k (p : Nat), lookupFiles w b k = some p ↔ IsLast es (b, k) p
  children_iff : ∀ (p c : Nat), c ∈ (w.heap p).children ↔
    ∃ ec, es[c]? = some ec ∧ fileNameOf ec ≠ "" ∧ IsLast (es.take (c + 1)) (parentKeyOf ec) p
  children_sorted : ∀ p : Nat, (w.heap p).children.Pairwise (fun (a b : Nat) => a < b)

/-- An archive in which a file comes before the directory entry of its parent. -/
def childFirstArchive : List ZipFile :=
  [ { Name := "public/img/logo.png", Comment := "", ModTime := 7, Size := 0, InfoModTime := 7,
      InfoIsDir := false, OpenErr := false, ReadData := [], ReadErr := false },
    { Name := "public/img", Comment := "dir", ModTime := 7, Size := 0, InfoModTime := 7,
      InfoIsDir := false, OpenErr := false, ReadData := [], ReadErr := false } ]

/-- An archive in which the parent path of a file is itself a File entry. -/
def fileParentArchive : List ZipFile :=
  [ { Name := "public/a", Comment := "", ModTime := 7, Size := 0, InfoModTime := 7,
      InfoIsDir := false, OpenErr := false, ReadData := [], ReadErr := false },
    { Name := "public/a/x", Comment := "", ModTime := 7, Size := 0, InfoModTime := 7,
      InfoIsDir := false, OpenErr := false, ReadData := [], ReadErr := false } ]

/-- A File entry of three bytes whose first `Read` fails. -/
def brokenEntry : ZipFile :=
  { Name := "public/broken.bin", Comment := "", ModTime := 7, Size := 3, InfoModTime := 7,
    InfoIsDir := false, OpenErr := false, ReadData := [], ReadErr := true }

/-- A File entry of length zero. -/
def emptyEntry : ZipFile :=
  { Name := "public/empty.txt", Comment := "", ModTime := 7, Size := 0, InfoModTime := 7,
    InfoIsDir := false, OpenErr := false, ReadData := [], ReadErr := false }

/-- The state after ingesting the root directory, an unreadable file and an empty
file. -/
def brokenWorld : World := ingest [publicDirEntry, brokenEntry, emptyEntry]

/-- Parsers for an ELF executable (byte source 0) with one section (byte source 1)
that holds the scenario archive; nothing else parses. -/
def elfParsers : Parsers :=
  { zipNewReader := fun r _ =>
      if r = ReaderAt.source 1 then .ok { File := [publicDirEntry, testTxtEntry] }
      else .error .External
    machoNewFile := fun _ => .error .External
    elfNewFile := fun _ =>
      .ok [{ SectType := 1, Offset := 64, Size := 100, ReaderAt := ReaderAt.source 1 }]
    peNewFile := fun _ => .error .External }

/-- Parsers for a byte source that no strategy recognises. -/
def noParsers : Parsers :=
  { zipNewReader := fun _ _ => .error .External
    machoNewFile := fun _ => .error .External
    elfNewFile := fun _ => .error .External
    peNewFile := fun _ => .error .External }

/-- No Directory node of the heap has a reader. -/
def NoDirReader (h : Heap) : Prop := ∀ p : Nat, (h p).dir = true → (h p).reader = none

/-! ## Theorems -/

/-- Dropping a prefix by a test twice is dropping it once. -/
theorem dropWhile_idem {α : Type} (p : α → Bool) (l : List α) :
    (l.dropWhile p).dropWhile p = l.dropWhile p := by
  induction l with
  | nil => rfl
  | cons a t ih =>
    cases hp : p a
    · simp [List.dropWhile_cons, hp]
    · simpa [List.dropWhile_cons, hp] using ih

/-- Trimming leading slashes twice is trimming once. -/
theorem TrimLeft_idem (s : String) : TrimLeft (TrimLeft s) = TrimLeft s := by
  simp only [TrimLeft, dropWhile_idem]

/-- C1. `Open(path)` fails with NotFound exactly when the box stores no node under the
path with its leading slashes stripped, fails with DataUnavailable exactly when the
node found is a File whose buffer is absent, and otherwise succeeds with a handle on
that node; a Directory node and a File with an empty but present buffer open
successfully, and `init` gives a zero-length File entry such a buffer. -/
theorem C1_open_outcome (z : ZipBox) (path : String) (h : Heap) :
    ((z.Open path h).1 = .error .NotFound ↔ z.box.Files (TrimLeft path) = none) ∧
    ((z.Open path h).1 = .error .DataUnavailable ↔
      ∃ p, z.box.Files (TrimLeft path) = some p ∧ (h p).dir = false ∧ (h p).content = none) ∧
    (∀ p, z.box.Files (TrimLeft path) = some p →
      ¬ ((h p).dir = false ∧ (h p).content = none) → (z.Open path h).1 = .ok ⟨p⟩) ∧
    (∀ p, z.box.Files (TrimLeft path) = some p → (h p).dir = true →
      (z.Open path h).1 = .ok ⟨p⟩) ∧
    (∀ p, z.box.Files (TrimLeft path) = some p → (h p).dir = false →
      (h p).content = some [] → (z.Open path h).1 = .ok ⟨p⟩) ∧
    (∀ file : ZipFile, file.Comment ≠ "dir" → file.Size = 0 →
      (newNode file).dir = false ∧ (newNode file).content = some []) := by
  refine ⟨?_, ?_, ?_, ?_, ?_, ?_⟩
  · cases hf : z.box.Files (TrimLeft path) with
    | none => simp [ZipBox.Open, hf]
    | some p =>
      cases hd : (h p).dir <;> cases hc : (h p).content <;> simp [ZipBox.Open, hf, hd, hc]
  · cases hf : z.box.Files (TrimLeft path) with
    | none => simp [ZipBox.Open, hf]
    | some p =>
      cases hd : (h p).dir <;> cases hc : (h p).content <;> simp [ZipBox.Open, hf, hd, hc]
  · intro p hf hne
    cases hd : (h p).dir <;> cases hc : (h p).content <;> simp_all [ZipBox.Open]
  · intro p hf hd
    simp [ZipBox.Open, hf, hd]
  · intro p hf hd hc
    simp [ZipBox.Open, hf, hd, hc]
  · intro file hcm hsz
    simp [newNode, loadContent, hcm, hsz]

/-- C1 (witness). After ingesting a root directory, a file whose read fails and an
empty file, `Open` on the box fails with NotFound for a path that is not stored,
fails with DataUnavailable for the unreadable file, and succeeds for the root
directory and for the empty file, with and without leading slashes. -/
theorem C1_open_outcome_examples :
    ∃ z, get brokenWorld "public" = .ok z ∧
      (z.Open "missing.txt" brokenWorld.heap).1 = .error .NotFound ∧
      (z.Open "broken.bin" brokenWorld.heap).1 = .error .DataUnavailable ∧
      (z.Open "/" brokenWorld.heap).1 = .ok ⟨0⟩ ∧
      (z.Open "//empty.txt" brokenWorld.heap).1 = .ok ⟨2⟩ :=
  ⟨_, rfl,
    (C1_open_outcome _ "missing.txt" brokenWorld.heap).1.mpr (by decide),
    (C1_open_outcome _ "broken.bin" brokenWorld.heap).2.1.mpr
      ⟨1, by decide, by decide, by decide⟩,
    (C1_open_outcome _ "/" brokenWorld.heap).2.2.2.1 0 (by decide) (by decide),
    (C1_open_outcome _ "//empty.txt" brokenWorld.heap).2.2.2.2.1 2 (by decide) (by decide)
      (by decide)⟩

/-- C2 (as stated, refuted). The scenario box stores the file `test.txt` with content
"hello", yet on a filesystem without that file `Bytes` fails for both spellings of
the path, and on another filesystem it returns other bytes: the result is decided by
the filesystem, not by the archive. -/
theorem C2_bytes_ignores_archive :
    ∃ z, get scenarioWorld "public" = .ok z ∧
      (∃ p, z.box.Files "test.txt" = some p ∧
        (scenarioWorld.heap p).content = some helloBytes) ∧
      z.Bytes emptyFs "test.txt" ≠ .ok helloBytes ∧
      z.Bytes emptyFs "public/test.txt" ≠ .ok helloBytes ∧
      z.Bytes onesFs "test.txt" ≠ z.Bytes emptyFs "test.txt" :=
  ⟨_, rfl, ⟨1, rfl, by decide⟩, by decide, by decide, by decide⟩

/-- C2 (amended). For every box and path, `Bytes(path)` returns exactly what reading
`path` from the ordinary filesystem returns, so it returns content `c` exactly when
the filesystem file holds `c`, whatever box it is called on; `String(path)` returns
the same bytes, or the same error. -/
theorem C2_bytes_reads_filesystem (fs : String → Except Err (List Byte)) (z : ZipBox)
    (path : String) :
    z.Bytes fs path = fs path ∧
    (∀ c, z.Bytes fs path = .ok c ↔ fs path = .ok c) ∧
    (∀ z2 : ZipBox, z2.Bytes fs path = z.Bytes fs path) ∧
    z.String fs path = z.Bytes fs path := by
  have hb : ∀ y : ZipBox, y.Bytes fs path = fs path := by
    intro y
    unfold ZipBox.Bytes
    cases fs path <;> rfl
  refine ⟨hb z, ?_, ?_, ?_⟩
  · intro c
    rw [hb z]
  · intro z2
    rw [hb z2, hb z]
  · unfold ZipBox.String
    cases z.Bytes fs path <;> rfl

/-- C3. On a handle on a Directory node, `Readdir` returns, for every count, one entry
per child in stored order; the entry of a Directory child carries its stored name and
modtime, size 0 and the directory flag, the entry of a File child the pass-through
name, size, modtime and directory flag of its archive entry.  On a handle on a File
node it fails with NotADirectory and returns no entries. -/
theorem C3_readdir (f : File) (count : Int) (h : Heap) :
    ((h f.ptr).dir = true →
      ∃ fi, f.Readdir count h = .ok fi ∧
        fi.length = (h f.ptr).children.length ∧
        ∀ i c, (h f.ptr).children.get? i = some c →
          (∀ d, (h c).dir = true → (h c).dirInfo = some d →
            fi.get? i = some (some
              { Name := d.name, Size := 0, ModTime := d.time, IsDir := true })) ∧
          ((h c).dir = false →
            fi.get? i = some (some
              { Name := Base (h c).zipFile.Name, Size := (h c).zipFile.Size,
                ModTime := (h c).zipFile.InfoModTime,
                IsDir := (h c).zipFile.InfoIsDir }))) ∧
    ((h f.ptr).dir = false → f.Readdir count h = .error .NotADirectory) := by
  constructor
  · intro hd
    refine ⟨(h f.ptr).children.map (fun child => childInfo (h child)), ?_, ?_, ?_⟩
    · simp [File.Readdir, hd]
    · simp
    · intro i c hc
      constructor
      · intro d hcd hdi
        simp [List.get?_eq_getElem?, List.getElem?_map] at hc ⊢
        simp [hc, childInfo, hcd, hdi, zipBoxDir.FileInfo]
      · intro hcd
        simp [List.get?_eq_getElem?, List.getElem?_map] at hc ⊢
        simp [hc, childInfo, hcd, ZipFile.FileInfo]
  · intro hd
    simp [File.Readdir, hd]

/-- C3 (witness). In the scenario, `Readdir` on the root directory handle succeeds
with one entry, the one of the child `test.txt`, and `Readdir` on the handle of the
file fails with NotADirectory. -/
theorem C3_readdir_scenario :
    (scenarioWorld.heap 0).dir = true ∧
    (scenarioWorld.heap 0).children = [1] ∧
    (∃ fi, File.Readdir ⟨0⟩ (-1) scenarioWorld.heap = .ok fi ∧ fi.length = 1 ∧
      fi.get? 0 = some (some
        { Name := "test.txt", Size := 5, ModTime := 7, IsDir := false })) ∧
    File.Readdir ⟨1⟩ 0 scenarioWorld.heap = .error .NotADirectory :=
  ⟨by decide, by decide,
    (C3_readdir ⟨0⟩ (-1) scenarioWorld.heap).1 (by decide) |>.elim
      (fun fi hfi => ⟨fi, hfi.1, hfi.2.1.trans (by decide),
        (hfi.2.2 0 1 (by decide)).2 (by decide)⟩),
    (C3_readdir ⟨1⟩ 0 scenarioWorld.heap).2 (by decide)⟩

/-- C4 (the code at the failing input). In the scenario, `Open("")` succeeds with a
handle on the Directory node of the box root, and `Read` on that handle reports
Closed, not IsDirectory: the nil-reader test runs first and a directory never has a
reader. -/
theorem C4_read_on_directory_reports_closed :
    ∃ z, get scenarioWorld "public" = .ok z ∧
      (z.Open "" scenarioWorld.heap).1 = .ok ⟨0⟩ ∧
      ((z.Open "" scenarioWorld.heap).2 0).dir = true ∧
      (File.Read ⟨0⟩ 8 (z.Open "" scenarioWorld.heap).2).1 = ([], some .Closed) :=
  ⟨_, rfl, by decide, by decide, by decide⟩

/-- C5 (the code at the failing input). In the scenario, `Open("")` succeeds with a
handle on the Directory node of the box root, and the first `Close` on that handle
already fails with AlreadyClosed. -/
theorem C5_first_close_on_directory_fails :
    ∃ z, get scenarioWorld "public" = .ok z ∧
      (z.Open "" scenarioWorld.heap).1 = .ok ⟨0⟩ ∧
      ((z.Open "" scenarioWorld.heap).2 0).dir = true ∧
      (File.Close ⟨0⟩ (z.Open "" scenarioWorld.heap).2).1 = .error .AlreadyClosed :=
  ⟨_, rfl, by decide, by decide, by decide⟩

/-- C6 (as stated, refuted). In the scenario the absolute path `/test.txt` is not
rejected by the HTTP adaptor: it opens the node stored under `test.txt`. -/
theorem C6_http_open_accepts_absolute :
    ∃ z, get scenarioWorld "public" = .ok z ∧
      IsAbs "/test.txt" = true ∧
      z.box.Files "test.txt" = some 1 ∧
      (z.HTTPZipBox.Open "/test.txt" scenarioWorld.heap).1 = .ok ⟨1⟩ :=
  ⟨_, rfl, by decide, by decide, by decide⟩

/-- C6 (amended). For every box and every path, the HTTP adaptor's `Open` is the
box's `Open`: it never fails with AbsolutePathRejected and gives the same result as
for the path with its leading slashes removed.  Absolute names are rejected, before
any registry lookup, by the box lookup `Get` only. -/
theorem C6_http_open_is_box_open (z : ZipBox) (path : String) (h : Heap) :
    z.HTTPZipBox.Open path h = z.Open path h ∧
    z.HTTPZipBox.Open path h = z.HTTPZipBox.Open (TrimLeft path) h ∧
    (z.HTTPZipBox.Open path h).1 ≠ .error .AbsolutePathRejected ∧
    (∀ (w : World) (name : String), IsAbs name = true →
      ∃ e, Get w name = .error e ∧ e = .AbsolutePathRejected) := by
  refine ⟨rfl, ?_, ?_, ?_⟩
  · simp only [HTTPZipBox.Open, ZipBox.Open, TrimLeft_idem]
  · cases hf : z.box.Files (TrimLeft path) with
    | none => simp [HTTPZipBox.Open, ZipBox.HTTPZipBox, ZipBox.Open, hf]
    | some p =>
      cases hd : (h p).dir <;> cases hc : (h p).content <;>
        simp [HTTPZipBox.Open, ZipBox.HTTPZipBox, ZipBox.Open, hf, hd, hc]
  · intro w name habs
    exact ⟨_, by simp [Get, ZipBoxModel.get, habs], rfl⟩

/-- The loop of `NewReader` returns the result of the first handler that succeeds,
whatever handlers follow it in the list. -/
theorem tryHandlers_first_success (pre post : List Handler) (g : Handler)
    (reader : ReaderAt) (size : Int) (v : ZipReader)
    (hpre : ∀ x ∈ pre, ∃ e, x reader size = .error e) (hok : g reader size = .ok v) :
    tryHandlers (pre ++ g :: post) reader size = .ok v := by
  induction pre with
  | nil => simp [tryHandlers, hok]
  | cons x rest ih =>
    obtain ⟨e, he⟩ := hpre x (List.mem_cons_self x rest)
    have hrest : ∀ y ∈ rest, ∃ e, y reader size = .error e :=
      fun y hy => hpre y (List.mem_cons_of_mem x hy)
    simp [tryHandlers, he, ih hrest]

/-- The loop of `NewReader` fails exactly when every handler fails. -/
theorem tryHandlers_error_iff (hs : List Handler) (reader : ReaderAt) (size : Int) :
    tryHandlers hs reader size = .error .UnrecognizedContainer ↔
      ∀ x ∈ hs, ∃ e, x reader size = .error e := by
  induction hs with
  | nil => simp [tryHandlers]
  | cons x rest ih =>
    cases hx : x reader size with
    | ok v => simp [tryHandlers, hx]
    | error e => simp [tryHandlers, hx, ih]

/-- The only error of the loop of `NewReader` is UnrecognizedContainer. -/
theorem tryHandlers_error_kind (hs : List Handler) (reader : ReaderAt) (size : Int)
    (e : Err) (he : tryHandlers hs reader size = .error e) : e = .UnrecognizedContainer := by
  induction hs with
  | nil =>
    simp [tryHandlers] at he
    exact he.symm
  | cons x rest ih =>
    cases hx : x reader size with
    | ok v => simp [tryHandlers, hx] at he
    | error e2 =>
      simp only [tryHandlers, hx] at he
      exact ih he

/-- C7. `NewReader` tries bare ZIP, Mach-O, ELF, PE in this order and returns the
result of the first strategy that succeeds; a success of one strategy fixes the
result whatever the strategies after it are; it fails, with UnrecognizedContainer
and no other error, if and only if all four strategies fail. -/
theorem C7_NewReader_first_success (ps : Parsers) (reader : ReaderAt) (size : Int) :
    (∀ v, ps.zipNewReader reader size = .ok v → NewReader ps reader size = .ok v) ∧
    (∀ v e1, ps.zipNewReader reader size = .error e1 →
      zipExeReaderMacho ps reader size = .ok v → NewReader ps reader size = .ok v) ∧
    (∀ v e1 e2, ps.zipNewReader reader size = .error e1 →
      zipExeReaderMacho ps reader size = .error e2 →
      zipExeReaderElf ps reader size = .ok v → NewReader ps reader size = .ok v) ∧
    (∀ v e1 e2 e3, ps.zipNewReader reader size = .error e1 →
      zipExeReaderMacho ps reader size = .error e2 →
      zipExeReaderElf ps reader size = .error e3 →
      zipExeReaderPe ps reader size = .ok v → NewReader ps reader size = .ok v) ∧
    (NewReader ps reader size = .error .UnrecognizedContainer ↔
      (∃ e, ps.zipNewReader reader size = .error e) ∧
      (∃ e, zipExeReaderMacho ps reader size = .error e) ∧
      (∃ e, zipExeReaderElf ps reader size = .error e) ∧
      (∃ e, zipExeReaderPe ps reader size = .error e)) ∧
    (∀ e, NewReader ps reader size = .error e → e = .UnrecognizedContainer) ∧
    (∀ (pre post : List Handler) (g : Handler) (v : ZipReader),
      (∀ x ∈ pre, ∃ e, x reader size = .error e) → g reader size = .ok v →
      ∀ later : List Handler,
        tryHandlers (pre ++ g :: later) reader size
          = tryHandlers (pre ++ g :: post) reader size) := by
  refine ⟨?_, ?_, ?_, ?_, ?_, ?_, ?_⟩
  · intro v h1
    simp [NewReader, handlers, tryHandlers, h1]
  · intro v e1 h1 h2
    simp [NewReader, handlers, tryHandlers, h1, h2]
  · intro v e1 e2 h1 h2 h3
    simp [NewReader, handlers, tryHandlers, h1, h2, h3]
  · intro v e1 e2 e3 h1 h2 h3 h4
    simp [NewReader, handlers, tryHandlers, h1, h2, h3, h4]
  · rw [NewReader, tryHandlers_error_iff]
    simp [handlers]
  · intro e he
    exact tryHandlers_error_kind _ _ _ e he
  · intro pre post g v hpre hok later
    rw [tryHandlers_first_success pre later g reader size v hpre hok,
      tryHandlers_first_success pre post g reader size v hpre hok]

/-- C7 (witness). For an ELF executable whose section holds the scenario archive the
bare-ZIP and Mach-O strategies fail and `NewReader` returns the result of the ELF
strategy, so `init` ends in the scenario state; for a byte source that no strategy
recognises `NewReader` fails with UnrecognizedContainer and `init` leaves the
registry empty. -/
theorem C7_NewReader_examples :
    NewReader elfParsers (ReaderAt.source 0) 200
      = .ok { File := [publicDirEntry, testTxtEntry] } ∧
    (init elfParsers (.ok (ReaderAt.source 0, 200))).zipBoxes
      = scenarioWorld.zipBoxes ∧
    NewReader noParsers (ReaderAt.source 0) 200 = .error .UnrecognizedContainer ∧
    (init noParsers (.ok (ReaderAt.source 0, 200))).zipBoxes "public" = none :=
  ⟨(C7_NewReader_first_success elfParsers (ReaderAt.source 0) 200).2.2.1
      { File := [publicDirEntry, testTxtEntry] } .External .External rfl rfl (by decide),
    rfl,
    (C7_NewReader_first_success noParsers (ReaderAt.source 0) 200).2.2.2.2.1.mpr
      ⟨⟨_, rfl⟩, ⟨_, rfl⟩, ⟨_, rfl⟩, ⟨_, rfl⟩⟩,
    rfl⟩

/-- C8 (as stated, refuted). After ingesting the scenario archive the box `public`
exists, but `Open("public")` on it fails with NotFound: paths are relative to the
box, and the box root is stored under the empty path. -/
theorem C8_open_public_not_found :
    ∃ z, get scenarioWorld "public" = .ok z ∧
      (z.Open "public" scenarioWorld.heap).1 = .error .NotFound :=
  ⟨_, rfl, by decide⟩

/-- C8 (amended). After ingesting the scenario archive the box `public` exists,
`Open("")` on it succeeds with a handle on the root Directory node, and `Readdir`
on that handle yields exactly one entry, named `test.txt`. -/
theorem C8_scenario_root_listing :
    ∃ z f h, get scenarioWorld "public" = .ok z ∧
      z.Open "" scenarioWorld.heap = (.ok f, h) ∧
      (h f.ptr).dir = true ∧
      ∃ info, f.Readdir 0 h = .ok [some info] ∧ info.Name = "test.txt" :=
  ⟨_, ⟨0⟩, _, rfl, rfl, by decide, ⟨_, rfl, by decide⟩⟩

/-- C10 (the code at the failing input). In the scenario two successful opens of
`test.txt` give handles `a` and `b` on the same node, whose single reader both use:
after the second open a two-byte read on `a` returns "he" and the next read on `b`
continues at offset 2 with "ll" instead of starting at its own offset 0, and after
closing `a` a read on `b` fails with Closed. -/
theorem C10_handles_share_cursor :
    ∃ z a b h1 h2 h3, get scenarioWorld "public" = .ok z ∧
      z.Open "test.txt" scenarioWorld.heap = (.ok a, h1) ∧
      z.Open "test.txt" h1 = (.ok b, h2) ∧
      (a.Read 2 h2).1 = ([104, 101], none) ∧
      (b.Read 2 (a.Read 2 h2).2).1 = ([108, 108], none) ∧
      a.Close h2 = (.ok (), h3) ∧
      (b.Read 2 h3).1 = ([], some .Closed) ∧
      (b.Close h3).1 = .error .AlreadyClosed :=
  ⟨_, ⟨1⟩, ⟨1⟩, _, _, _, rfl, rfl, rfl, by decide, by decide, rfl, by decide, by decide⟩

/-- One more entry allocates one more node. -/
theorem ingestEntry_next (w : World) (e : ZipFile) : (ingestEntry w e).next = w.next + 1 := rfl

/-- The registry after one more entry: the new node is stored under the key of the
entry, everything else is as before. -/
theorem lookupFiles_ingestEntry (w : World) (e : ZipFile) (b k : String) :
    lookupFiles (ingestEntry w e) b k =
      if b = boxNameOf e ∧ k = fileNameOf e then some w.next else lookupFiles w b k := by
  unfold lookupFiles ingestEntry
  by_cases hb : b = boxNameOf e
  · subst hb
    by_cases hk : k = fileNameOf e
    · simp [upd, hk]
    · cases hz : w.zipBoxes (boxNameOf e) <;> simp [upd, hk, hz]
  · simp [upd, hb]

/-- The heap after one more entry. -/
theorem ingestEntry_heap (w : World) (e : ZipFile) (q : Ptr) :
    (ingestEntry w e).heap q =
      if fileNameOf e ≠ "" ∧
          lookupFiles (ingestEntry w e) (boxNameOf e) (dirNameOf (fileNameOf e)) = some q then
        { upd w.heap w.next (newNode e) q with
          children := (upd w.heap w.next (newNode e) q).children ++ [w.next] }
      else upd w.heap w.next (newNode e) q := by
  have hl : lookupFiles (ingestEntry w e) (boxNameOf e) (dirNameOf (fileNameOf e)) =
      upd (match w.zipBoxes (boxNameOf e) with
        | some b => b
        | none => { Name := boxNameOf e, Files := fun _ => none, Time := e.ModTime }).Files
        (fileNameOf e) (some w.next) (dirNameOf (fileNameOf e)) := by
    simp [lookupFiles, ingestEntry, upd]
  rw [hl]
  simp only [ingestEntry]
  by_cases hfn : fileNameOf e = ""
  · simp [hfn]
  · simp only [ne_eq, hfn, not_false_eq_true, if_true, true_and]
    cases hlook : upd (match w.zipBoxes (boxNameOf e) with
        | some b => b
        | none => { Name := boxNameOf e, Files := fun _ => none, Time := e.ModTime }).Files
        (fileNameOf e) (some w.next) (dirNameOf (fileNameOf e)) with
    | none => simp
    | some d =>
      by_cases hq : q = d
      · subst hq
        simp [upd]
      · have hq2 : ¬ d = q := fun h => hq h.symm
        simp [upd, hq, hq2]

/-- The archive entry of a node after one more entry. -/
theorem ingestEntry_zipFile (w : World) (e : ZipFile) (q : Ptr) :
    ((ingestEntry w e).heap q).zipFile = if q = w.next then e else (w.heap q).zipFile := by
  have hn : (newNode e).zipFile = e := by
    unfold newNode
    split <;> rfl
  rw [ingestEntry_heap]
  by_cases hq : q = w.next <;> split <;> simp [upd, hq, hn]

/-- The children of a node after one more entry: the new node is appended to the
children of the node found under the parent path, if the path of the entry is not
empty. -/
theorem ingestEntry_children (w : World) (e : ZipFile) (q : Ptr) :
    ((ingestEntry w e).heap q).children =
      (if q = w.next then [] else (w.heap q).children) ++
        (if fileNameOf e ≠ "" ∧
            lookupFiles (ingestEntry w e) (boxNameOf e) (dirNameOf (fileNameOf e)) = some q
          then [w.next] else []) := by
  have hn : (newNode e).children = [] := by
    unfold newNode
    split <;> rfl
  rw [ingestEntry_heap]
  by_cases hq : q = w.next <;> split <;> simp [upd, hq, hn]

/-- Indexing into a list extended by one element. -/
theorem getElem?_snoc (es : List ZipFile) (e : ZipFile) (j : Nat) :
    (es ++ [e])[j]? =
      if j < es.length then es[j]? else if j = es.length then some e else none := by
  by_cases h1 : j < es.length
  · simp [h1, List.getElem?_append_left h1]
  · by_cases h2 : j = es.length
    · subst h2
      simp
    · have h3 : es.length + 1 ≤ j := by omega
      have h4 : (es ++ [e]).length ≤ j := by simpa using h3
      simp [h1, h2, List.getElem?_eq_none h4]

/-- An index with an element is within the list. -/
theorem lt_of_getElem?_eq_some (es : List ZipFile) (j : Nat) (e : ZipFile)
    (h : es[j]? = some e) : j < es.length := by
  by_contra hlt
  have hle : es.length ≤ j := by omega
  rw [List.getElem?_eq_none hle] at h
  cases h

/-- The last entry stored under a key, after one more entry. -/
theorem IsLast_snoc (es : List ZipFile) (e : ZipFile) (key : String × String) (p : Nat) :
    IsLast (es ++ [e]) key p ↔
      if keyOf e = key then p = es.length else IsLast es key p := by
  unfold IsLast
  by_cases hk : keyOf e = key
  · simp only [hk, if_true]
    constructor
    · rintro ⟨⟨e1, h1, _⟩, h2⟩
      have hp := lt_of_getElem?_eq_some _ _ _ h1
      simp at hp
      by_contra hne
      have hlt : p < es.length := by omega
      exact h2 es.length e hlt (by simp) hk
    · intro hp
      subst hp
      refine ⟨⟨e, by simp, hk⟩, ?_⟩
      intro j e2 hj h2
      have := lt_of_getElem?_eq_some _ _ _ h2
      simp at this
      omega
  · simp only [hk, if_false]
    constructor
    · rintro ⟨⟨e1, h1, hk1⟩, h2⟩
      rw [getElem?_snoc] at h1
      by_cases hp : p < es.length
      · simp only [hp, if_true] at h1
        refine ⟨⟨e1, h1, hk1⟩, ?_⟩
        intro j e2 hj hj2
        have hjl := lt_of_getElem?_eq_some _ _ _ hj2
        refine h2 j e2 hj ?_
        rw [getElem?_snoc]
        simp [hjl, hj2]
      · simp only [hp, if_false] at h1
        by_cases hp2 : p = es.length
        · simp only [hp2, if_true] at h1
          cases h1
          exact absurd hk1 hk
        · simp [hp2] at h1
    · rintro ⟨⟨e1, h1, hk1⟩, h2⟩
      have hp := lt_of_getElem?_eq_some _ _ _ h1
      refine ⟨⟨e1, ?_, hk1⟩, ?_⟩
      · rw [getElem?_snoc]
        simp [hp, h1]
      · intro j e2 hj hj2
        rw [getElem?_snoc] at hj2
        by_cases hjl : j < es.length
        · simp only [hjl, if_true] at hj2
          exact h2 j e2 hj hj2
        · simp only [hjl, if_false] at hj2
          by_cases hj3 : j = es.length
          · simp only [hj3, if_true] at hj2
            cases hj2
            exact hk
          · simp [hj3] at hj2

/-- The invariants hold before any entry is processed. -/
theorem Inv_empty : Inv [] World.empty where
  next_eq := rfl
  zipFile_eq := by
    intro p e h
    simp at h
  files_iff := by
    intro b k p
    simp [lookupFiles, World.empty, IsLast]
  children_iff := by
    intro p c
    simp [World.empty, zipBoxFile.zero]
  children_sorted := by
    intro p
    simp [World.empty, zipBoxFile.zero]

/-- A child listed anywhere is an allocated node. -/
theorem Inv.child_lt {es : List ZipFile} {w : World} (h : Inv es w) (p c : Nat)
    (hc : c ∈ (w.heap p).children) : c < es.length := by
  obtain ⟨ec, h1, _⟩ := (h.children_iff p c).mp hc
  exact lt_of_getElem?_eq_some _ _ _ h1

/-- A node with children is an allocated node. -/
theorem Inv.parent_lt {es : List ZipFile} {w : World} (h : Inv es w) (p c : Nat)
    (hc : c ∈ (w.heap p).children) : p < es.length := by
  obtain ⟨ec, _, _, ⟨e1, h3, _⟩, _⟩ := (h.children_iff p c).mp hc
  have h4 := lt_of_getElem?_eq_some _ _ _ h3
  simp at h4
  omega

/-- The invariants are kept by the loop body of `init`. -/
theorem Inv_step (es : List ZipFile) (w : World) (e : ZipFile) (h : Inv es w) :
    Inv (es ++ [e]) (ingestEntry w e) := by
  have hfiles : ∀ (b k : String) (p : Nat),
      lookupFiles (ingestEntry w e) b k = some p ↔ IsLast (es ++ [e]) (b, k) p := by
    intro b k p
    rw [lookupFiles_ingestEntry, IsLast_snoc]
    by_cases hk : keyOf e = (b, k)
    · have hbk : b = boxNameOf e ∧ k = fileNameOf e := by
        simp only [keyOf, Prod.mk.injEq] at hk
        exact ⟨hk.1.symm, hk.2.symm⟩
      simp only [hk, hbk, and_self, if_true, Option.some.injEq, h.next_eq]
      exact eq_comm
    · have hbk : ¬ (b = boxNameOf e ∧ k = fileNameOf e) := by
        rintro ⟨h1, h2⟩
        exact hk (by simp [keyOf, h1, h2])
      simp only [hk, hbk, if_false]
      exact h.files_iff b k p
  have hnil : (w.heap w.next).children = [] := by
    apply List.eq_nil_iff_forall_not_mem.mpr
    intro c hc
    have := h.parent_lt _ _ hc
    rw [h.next_eq] at this
    omega
  have hbase : ∀ q : Nat, (if q = w.next then [] else (w.heap q).children) = (w.heap q).children := by
    intro q
    by_cases hq : q = w.next
    · simp [hq, hnil]
    · simp [hq]
  refine ⟨?_, ?_, hfiles, ?_, ?_⟩
  · simp [ingestEntry_next, h.next_eq]
  · intro p e1 hp
    rw [ingestEntry_zipFile, h.next_eq]
    rw [getElem?_snoc] at hp
    by_cases hp1 : p < es.length
    · have hp2 : p ≠ es.length := by omega
      simp only [hp1, if_true] at hp
      simp only [hp2, if_false]
      exact h.zipFile_eq p e1 hp
    · by_cases hp2 : p = es.length
      · simp only [hp1, hp2, if_false, if_true, lt_self_iff_false, Option.some.injEq] at hp
        simp [hp2, hp]
      · simp [hp1, hp2] at hp
  · intro q c
    rw [ingestEntry_children, hbase, List.mem_append]
    rcases Nat.lt_trichotomy c es.length with hc | hc | hc
    · have e1 : (es ++ [e])[c]? = es[c]? := by
        rw [getElem?_snoc]
        simp [hc]
      have e2 : (es ++ [e]).take (c + 1) = es.take (c + 1) :=
        List.take_append_of_le_length (by omega)
      rw [e1, e2, ← h.children_iff]
      constructor
      · rintro (h1 | h1)
        · exact h1
        · split at h1
          · simp only [List.mem_singleton, h.next_eq] at h1
            omega
          · simp at h1
      · exact Or.inl
    · subst hc
      have e1 : (es ++ [e])[es.length]? = some e := by simp
      have e2 : (es ++ [e]).take (es.length + 1) = es ++ [e] := by simp
      have hnot : es.length ∉ (w.heap q).children := by
        intro hc
        have := h.child_lt _ _ hc
        omega
      rw [e1, e2]
      simp only [hnot, false_or, h.next_eq]
      constructor
      · intro h1
        split at h1
        · rename_i hcond
          exact ⟨e, rfl, hcond.1, (hfiles _ _ _).mp hcond.2⟩
        · simp at h1
      · rintro ⟨ec, h1, h2, h3⟩
        cases h1
        have hcond : fileNameOf e ≠ "" ∧
            lookupFiles (ingestEntry w e) (boxNameOf e) (dirNameOf (fileNameOf e)) = some q :=
          ⟨h2, (hfiles _ _ _).mpr h3⟩
        simp [hcond]
    · have e1 : (es ++ [e])[c]? = none := by
        apply List.getElem?_eq_none
        simp
        omega
      have hnot : c ∉ (w.heap q).children := by
        intro hc2
        have := h.child_lt _ _ hc2
        omega
      rw [e1]
      simp only [hnot, false_or]
      constructor
      · intro h1
        split at h1
        · simp only [List.mem_singleton, h.next_eq] at h1
          omega
        · simp at h1
      · rintro ⟨ec, h1, _⟩
        cases h1
  · intro q
    rw [ingestEntry_children, hbase, List.pairwise_append]
    refine ⟨h.children_sorted q, ?_, ?_⟩
    · split <;> simp
    · intro a ha b hb
      have ha2 := h.child_lt _ _ ha
      split at hb
      · simp only [List.mem_singleton, h.next_eq] at hb
        omega
      · simp at hb

/-- The loop of `init` over a list extended by one entry. -/
theorem ingest_snoc (es : List ZipFile) (e : ZipFile) :
    ingest (es ++ [e]) = ingestEntry (ingest es) e := by
  simp [ingest, List.foldl_append]

/-- The invariants hold after the ingest pass over any sequence of entries. -/
theorem Inv_ingest (es : List ZipFile) : Inv es (ingest es) := by
  induction es using List.reverseRecOn with
  | nil => exact Inv_empty
  | append_singleton l a ih =>
    rw [ingest_snoc]
    exact Inv_step l (ingest l) a ih

/-- Entries at different positions of an archive with distinct keys have different keys. -/
theorem DistinctKeys.ne_of_lt {es : List ZipFile} (hd : DistinctKeys es) (i j : Nat)
    (a b : ZipFile) (hi : es[i]? = some a) (hj : es[j]? = some b) (hij : i < j) :
    keyOf a ≠ keyOf b := by
  have hil := lt_of_getElem?_eq_some _ _ _ hi
  have hjl := lt_of_getElem?_eq_some _ _ _ hj
  rw [List.getElem?_eq_getElem hil] at hi
  rw [List.getElem?_eq_getElem hjl] at hj
  cases hi
  cases hj
  unfold DistinctKeys List.Nodup at hd
  rw [List.pairwise_iff_getElem] at hd
  have := hd i j (by simpa using hil) (by simpa using hjl) hij
  simpa using this

/-- In a parent-first archive an entry stored under the parent path of an entry does
not come after it. -/
theorem ParentFirst.le_of_parent {es : List ZipFile} (ho : ParentFirst es) (p c : Nat)
    (ep ec : ZipFile) (hp : es[p]? = some ep) (hc : es[c]? = some ec)
    (hpar : IsParentEntry ep ec) : p ≤ c := by
  have hpl := lt_of_getElem?_eq_some _ _ _ hp
  have hcl := lt_of_getElem?_eq_some _ _ _ hc
  rw [List.getElem?_eq_getElem hpl] at hp
  rw [List.getElem?_eq_getElem hcl] at hc
  cases hp
  cases hc
  unfold ParentFirst at ho
  rw [List.pairwise_iff_getElem] at ho
  by_contra hlt
  exact absurd hpar (ho c p hcl hpl (by omega))

/-- The last entry under a key stays the last one in every prefix that contains it. -/
theorem IsLast.take {es : List ZipFile} {key : String × String} {p : Nat}
    (h : IsLast es key p) (n : Nat) (hpn : p < n) : IsLast (es.take n) key p := by
  obtain ⟨⟨e, h1, h2⟩, h3⟩ := h
  refine ⟨⟨e, ?_, h2⟩, ?_⟩
  · rw [List.getElem?_take]
    simp [hpn, h1]
  · intro j e2 hj hj2
    rw [List.getElem?_take] at hj2
    by_cases hjn : j < n
    · simp only [hjn, if_true] at hj2
      exact h3 j e2 hj hj2
    · simp [hjn] at hj2

/-- An element of a prefix is the element of the list at the same index. -/
theorem getElem?_of_take {es : List ZipFile} {n p : Nat} {e : ZipFile}
    (h : (es.take n)[p]? = some e) : es[p]? = some e := by
  rw [List.getElem?_take] at h
  by_cases hpn : p < n
  · simpa [hpn] using h
  · simp [hpn] at h

/-- The node stored under a path of an existing box. -/
theorem lookupFiles_of_box (w : World) (b k : String) (box : zipBox)
    (hb : w.zipBoxes b = some box) : lookupFiles w b k = box.Files k := by
  simp [lookupFiles, hb]

/-- C9 (as stated, refuted). In an archive where the file `public/img/logo.png`
comes before the directory entry `public/img`, the Directory node at `img` ends with
no children although the node at `img/logo.png` of the same box has parent `img`;
and in an archive where `public/a` is a File entry followed by `public/a/x`, the File
node at `a` ends with a child. -/
theorem C9_children_not_exact :
    (∃ box, (ingest childFirstArchive).zipBoxes "public" = some box ∧
      box.Files "img" = some 1 ∧ box.Files "img/logo.png" = some 0 ∧
      dirNameOf "img/logo.png" = "img" ∧
      ((ingest childFirstArchive).heap 1).dir = true ∧
      ((ingest childFirstArchive).heap 1).children = []) ∧
    (((ingest fileParentArchive).heap 0).dir = false ∧
      ((ingest fileParentArchive).heap 0).children = [1]) :=
  ⟨⟨_, rfl, by decide, by decide, by decide, by decide, by decide⟩, by decide, by decide⟩

/-- C9 (amended). After the ingest pass over any sequence of archive entries, in
every box each node listed among the children of the node stored at path `d` is the
node of an entry of the same box whose path is not empty and has parent `d`, and the
children are listed in archive order, none twice.  If moreover no two entries share box and path and every entry
stored under the parent path of another precedes it, the children of the node at
path `d` are exactly the nodes stored in the box under the non-empty paths whose
parent is `d`. -/
theorem C9_children_of_ingest (entries : List ZipFile) :
    (∀ (b : String) (box : zipBox) (d : String) (p c : Nat),
      (ingest entries).zipBoxes b = some box → box.Files d = some p →
      c ∈ ((ingest entries).heap p).children →
      ∃ ec, entries[c]? = some ec ∧ ((ingest entries).heap c).zipFile = ec ∧
        boxNameOf ec = b ∧ fileNameOf ec ≠ "" ∧ dirNameOf (fileNameOf ec) = d) ∧
    (∀ p : Nat, ((ingest entries).heap p).children.Nodup ∧
      ((ingest entries).heap p).children.Pairwise (fun (a c : Nat) => a < c)) ∧
    (DistinctKeys entries → ParentFirst entries →
      ∀ (b : String) (box : zipBox) (d : String) (p : Nat),
        (ingest entries).zipBoxes b = some box → box.Files d = some p →
        ∀ c : Nat, c ∈ ((ingest entries).heap p).children ↔
          ∃ k, k ≠ "" ∧ dirNameOf k = d ∧ box.Files k = some c) := by
  have hinv := Inv_ingest entries
  have sound : ∀ (b : String) (box : zipBox) (d : String) (p c : Nat),
      (ingest entries).zipBoxes b = some box → box.Files d = some p →
      c ∈ ((ingest entries).heap p).children →
      ∃ ec, entries[c]? = some ec ∧ ((ingest entries).heap c).zipFile = ec ∧
        boxNameOf ec = b ∧ fileNameOf ec ≠ "" ∧ dirNameOf (fileNameOf ec) = d := by
    intro b box d p c hbox hd hc
    obtain ⟨ec, h1, h2, ⟨e1, h3, h4⟩, _⟩ := (hinv.children_iff p c).mp hc
    have hl : lookupFiles (ingest entries) b d = some p := by
      rw [lookupFiles_of_box _ _ _ _ hbox, hd]
    obtain ⟨⟨ep, h5, h6⟩, _⟩ := (hinv.files_iff b d p).mp hl
    have h7 := getElem?_of_take h3
    rw [h5] at h7
    cases h7
    rw [h6] at h4
    simp only [parentKeyOf, Prod.mk.injEq] at h4
    exact ⟨ec, h1, hinv.zipFile_eq c ec h1, h4.1.symm, h2, h4.2.symm⟩
  refine ⟨sound, ?_, ?_⟩
  · intro p
    exact ⟨(hinv.children_sorted p).imp (fun hab => Nat.ne_of_lt hab), hinv.children_sorted p⟩
  · intro hdist hfirst b box d p hbox hd c
    have hl : lookupFiles (ingest entries) b d = some p := by
      rw [lookupFiles_of_box _ _ _ _ hbox, hd]
    constructor
    · intro hc
      obtain ⟨ec, h1, _, h3, h4, h5⟩ := sound b box d p c hbox hd hc
      refine ⟨fileNameOf ec, h4, h5, ?_⟩
      rw [← lookupFiles_of_box _ _ _ _ hbox]
      apply (hinv.files_iff _ _ _).mpr
      refine ⟨⟨ec, h1, by simp [keyOf, h3]⟩, ?_⟩
      intro j e2 hj hj2 hkey
      have hne := hdist.ne_of_lt c j ec e2 h1 hj2 hj
      apply hne
      rw [hkey]
      simp [keyOf, h3]
    · rintro ⟨k, hk, hkd, hfk⟩
      have hlk : lookupFiles (ingest entries) b k = some c := by
        rw [lookupFiles_of_box _ _ _ _ hbox, hfk]
      obtain ⟨⟨ec, h1, h2⟩, _⟩ := (hinv.files_iff b k c).mp hlk
      have hlast := (hinv.files_iff b d p).mp hl
      obtain ⟨⟨ep, h3, h4⟩, _⟩ := (hinv.files_iff b d p).mp hl
      simp only [keyOf, Prod.mk.injEq] at h2
      have hpk : parentKeyOf ec = (b, d) := by
        simp [parentKeyOf, h2.1, h2.2, hkd]
      have hne : fileNameOf ec ≠ "" := by
        rw [h2.2]
        exact hk
      have hpar : IsParentEntry ep ec := ⟨hne, by rw [h4, hpk]⟩
      have hle := hfirst.le_of_parent p c ep ec h3 h1 hpar
      apply (hinv.children_iff p c).mpr
      refine ⟨ec, h1, hne, ?_⟩
      rw [hpk]
      exact hlast.take (c + 1) (by omega)

/-- C9 (witness). The scenario archive has distinct keys and is parent-first, and in
its box `public` the children of the root node are exactly the nodes stored under
the non-empty paths whose parent is the root. -/
theorem C9_children_of_ingest_scenario :
    DistinctKeys [publicDirEntry, testTxtEntry] ∧
    ParentFirst [publicDirEntry, testTxtEntry] ∧
    ∃ box, (ingest [publicDirEntry, testTxtEntry]).zipBoxes "public" = some box ∧
      box.Files "" = some 0 ∧
      ∀ c : Nat, c ∈ ((ingest [publicDirEntry, testTxtEntry]).heap 0).children ↔
        ∃ k, k ≠ "" ∧ dirNameOf k = "" ∧ box.Files k = some c :=
  ⟨by decide, by decide, _, rfl, by decide,
    (C9_children_of_ingest [publicDirEntry, testTxtEntry]).2.2 (by decide) (by decide)
      "public" _ "" 0 rfl (by decide)⟩

/-- The reader of a node after one more entry: `init` never sets one. -/
theorem ingestEntry_reader (w : World) (e : ZipFile) (q : Nat) :
    ((ingestEntry w e).heap q).reader = if q = w.next then none else (w.heap q).reader := by
  have hn : (newNode e).reader = none := by
    unfold newNode
    split <;> rfl
  rw [ingestEntry_heap]
  by_cases hq : q = w.next <;> split <;> simp [upd, hq, hn]

/-- After the ingest pass no node has a reader. -/
theorem ingest_reader_none (es : List ZipFile) (q : Nat) :
    ((ingest es).heap q).reader = none := by
  induction es using List.reverseRecOn generalizing q with
  | nil => rfl
  | append_singleton l a ih =>
    rw [ingest_snoc, ingestEntry_reader]
    split
    · rfl
    · exact ih q

/-- After the ingest pass no Directory node has a reader. -/
theorem ingest_NoDirReader (es : List ZipFile) : NoDirReader (ingest es).heap :=
  fun q _ => ingest_reader_none es q

/-- The method `Open` gives a reader to File nodes only. -/
theorem Open_NoDirReader (z : ZipBox) (path : String) (h : Heap) (hn : NoDirReader h) :
    NoDirReader (z.Open path h).2 := by
  intro q hq
  unfold ZipBox.Open at hq ⊢
  cases hf : z.box.Files (TrimLeft path) with
  | none =>
    simp only [hf] at hq ⊢
    exact hn q hq
  | some p =>
    simp only [hf] at hq ⊢
    cases hd : (h p).dir
    · cases hc : (h p).content with
      | none =>
        simp only [hd, hc, Bool.not_false, if_true] at hq ⊢
        exact hn q hq
      | some content =>
        simp only [hd, hc, Bool.not_false, if_true] at hq ⊢
        by_cases hqp : q = p
        · subst hqp
          simp [upd, hd] at hq
        · simp only [upd, hqp, if_false] at hq ⊢
          exact hn q hq
    · simp only [hd, Bool.not_true, Bool.false_eq_true, if_false] at hq ⊢
      exact hn q hq

/-- On a heap whose Directory nodes have no reader, a handle on a Directory node
reports Closed on `Read` and AlreadyClosed on `Close`, and neither call changes the
heap. -/
theorem directory_handle_is_born_closed (h : Heap) (hn : NoDirReader h) (f : File)
    (hd : (h f.ptr).dir = true) (n : Nat) :
    f.Read n h = (([], some .Closed), h) ∧ f.Close h = (.error .AlreadyClosed, h) := by
  have hr := hn f.ptr hd
  constructor
  · simp [File.Read, hr]
  · simp [File.Close, hr]

/-- The node `init` creates carries, when it is a directory, the base name and the
modtime of its entry. -/
theorem newNode_dirInfo (e : ZipFile) (hd : (newNode e).dir = true) :
    (newNode e).dirInfo = some { name := Base (newNode e).zipFile.Name,
                                 time := (newNode e).zipFile.ModTime } := by
  unfold newNode at hd ⊢
  split <;> simp_all

/-- After the ingest pass every Directory node carries the base name and the modtime
of its entry, so `Readdir` reports it under that name. -/
theorem ingest_dirInfo (es : List ZipFile) (q : Nat)
    (hd : ((ingest es).heap q).dir = true) :
    ((ingest es).heap q).dirInfo =
      some { name := Base ((ingest es).heap q).zipFile.Name,
             time := ((ingest es).heap q).zipFile.ModTime } := by
  induction es using List.reverseRecOn generalizing q with
  | nil => simp [ingest, World.empty, zipBoxFile.zero] at hd
  | append_singleton l a ih =>
    rw [ingest_snoc] at hd ⊢
    rw [ingestEntry_heap] at hd ⊢
    by_cases hq : q = (ingest l).next
    · subst hq
      split at hd <;> split <;> simp_all [upd, newNode_dirInfo]
    · split at hd <;> split <;> simp_all [upd]

end ZipBoxModel
